import Mathlib

/-!
Verification development for the IWIZ inventory-management backend
(products, users with role-derived permissions, and the handover
lifecycle coupled to stock accounting).

The data model and the operations are shallow embeddings of the route
handlers in src/routes/handovers.js and src/routes/products.js and of
the user pre-save hook in src/models/User.js.  Mongo documents become
Lean structures; the database becomes an explicit record of lists;
every route handler becomes a function from the database and the
request parameters to an Except value: an error constructor stands for
the handler returning an error response before performing any write
(in every embedded handler, all guard failures in the source occur
before the first save), and an ok value carries the updated database.

Free-text fields (purpose, notes, returnNotes, rejectionReason,
approvalNotes) carry no invariant (spec section 3) and are omitted from
the record structures; dates are modelled as abstract Nat instants
passed in as a `now` parameter.  Mongo ObjectId handles are modelled as
Nat.
-/

namespace IMS

/-- Handover status enum from src/models/HandOver.js
(`enum: ['pending', 'handed_over', 'returned', 'rejected']`). -/
inductive HStatus where
  | pending
  | handed_over
  | returned
  | rejected
deriving DecidableEq, Repr

/-- A product document: `productId` is the human-facing sequence id,
`quantity` is `stock.quantity` (a JS number, hence `Int` here: nothing
in the type forbids negative values, only the guards in the handlers),
`createdAt` the creation timestamp (src/models/Product.js). -/
structure Product where
  id : Nat
  productId : Nat
  quantity : Int
  createdAt : Nat
deriving DecidableEq, Repr

/-- A handover document (src/models/HandOver.js).  `returnedQuantity`
is Option-valued: the field is absent until the first employee return
writes it, and the route reads it through `(handover.returnedQuantity
|| 0)`. -/
structure HandOver where
  id : Nat
  product : Nat
  employee : Nat
  handedOverBy : Option Nat
  quantity : Int
  returnedQuantity : Option Int
  status : HStatus
  handOverDate : Option Nat
  actualReturnDate : Option Nat
  returnDate : Option Nat
  returnedBy : Option Nat
  rejectedBy : Option Nat
deriving DecidableEq, Repr

/-- Error responses returned by the handlers before any write: each
constructor names the 4xx response of the corresponding guard. -/
inductive Err where
  | notFound
  | insufficientStock
  | notPending
  | notActive
  | alreadyReturned
  | returnQuantityExceeds
  | forbidden
  | validationError
deriving DecidableEq, Repr

/-- The persistent store: the products and handovers collections, the
set of existing user ids, and the `Counter('productId').seq` value used
by the product pre-save hook. -/
structure DB where
  products : List Product
  handovers : List HandOver
  users : List Nat
  counterSeq : Nat
deriving DecidableEq, Repr

/-- `Product.findById`. -/
def findProduct (db : DB) (pid : Nat) : Option Product :=
  db.products.find? (fun p => p.id = pid)

/-- `HandOver.findById`. -/
def findHandover (db : DB) (hid : Nat) : Option HandOver :=
  db.handovers.find? (fun h => h.id = hid)

/-- `product.save()` after mutating the fetched document in place:
every stock write in the source mutates a document previously fetched
with findById and saves that document wholesale. -/
def saveProduct (db : DB) (p : Product) : DB :=
  { db with products := db.products.map (fun q => if q.id = p.id then p else q) }

/-- `handover.save()` after mutating the document in place. -/
def saveHandover (db : DB) (h : HandOver) : DB :=
  { db with handovers := db.handovers.map (fun x => if x.id = h.id then h else x) }

/-- POST /api/handovers (src/routes/handovers.js lines 53-117): direct
handover by a manager/admin.  Validator: quantity an int at least 1.
Checks product existence, sufficient stock, employee existence; then
creates the record with status handed_over, with `handedOverBy:
handedOverBy || req.user.id` taking the client-supplied body field when
set and falling back to the authenticated caller, and decrements the
product stock. -/
def createDirectHandover (db : DB) (hid productId employeeId : Nat) (quantity : Int)
    (handedOverBy : Option Nat) (callerId now : Nat) : Except Err DB :=
  if quantity < 1 then .error .validationError
  else
    match findProduct db productId with
    | none => .error .notFound
    | some product =>
      if product.quantity < quantity then .error .insufficientStock
      else if employeeId ∉ db.users then .error .notFound
      else
        let h : HandOver :=
          { id := hid, product := productId, employee := employeeId
            handedOverBy := some (handedOverBy.getD callerId)
            quantity := quantity, returnedQuantity := none
            status := .handed_over, handOverDate := some now
            actualReturnDate := none, returnDate := none
            returnedBy := none, rejectedBy := none }
        let db' : DB := { db with handovers := db.handovers ++ [h] }
        .ok (saveProduct db' { product with quantity := product.quantity - quantity })

/-- POST /api/handovers/request (lines 239-285): employee handover
request.  Validator: quantity an int at least 1.  Checks product
existence only; creates the record with status pending, employee set to
the caller, no stock effect. -/
def createHandoverRequest (db : DB) (hid productId : Nat) (quantity : Int)
    (callerId now : Nat) : Except Err DB :=
  if quantity < 1 then .error .validationError
  else
    match findProduct db productId with
    | none => .error .notFound
    | some _ =>
      let h : HandOver :=
        { id := hid, product := productId, employee := callerId
          handedOverBy := none
          quantity := quantity, returnedQuantity := none
          status := .pending, handOverDate := some now
          actualReturnDate := none, returnDate := none
          returnedBy := none, rejectedBy := none }
      .ok { db with handovers := db.handovers ++ [h] }

/-- PUT /api/handovers/:id/return (lines 122-172): manager/admin marks
a handover returned.  The only status guard in the source is `if
(handover.status === 'returned')`; any non-returned record passes.  On
success the record becomes returned with returnedBy and
actualReturnDate set, and — when the product still exists — its stock
is incremented by the full handover quantity. -/
def markReturnedByManager (db : DB) (hid callerId now : Nat) : Except Err DB :=
  match findHandover db hid with
  | none => .error .notFound
  | some h =>
    if h.status = .returned then .error .alreadyReturned
    else
      let h' : HandOver :=
        { h with status := .returned, actualReturnDate := some now
                 returnedBy := some callerId }
      let db' := saveHandover db h'
      match findProduct db' h.product with
      | some p =>
        .ok (saveProduct db' { p with quantity := p.quantity + h.quantity })
      | none => .ok db'

/-- POST /api/handovers/:id/return (lines 290-359): employee partial
return.  Validator: returnQuantity an int at least 1.  Guards, in
source order: record exists; caller is the borrowing employee; status
is handed_over; `returnQuantity > handover.quantity` rejected (the
comparison is against the full borrowed quantity, not the outstanding
remainder).  Effect: returnedQuantity := (returnedQuantity || 0) +
returnQuantity, returnedBy and returnDate set, status becomes returned
when the new returnedQuantity reaches quantity; stock is incremented by
returnQuantity when the product still exists. -/
def returnHandover (db : DB) (hid callerId : Nat) (returnQuantity : Int)
    (now : Nat) : Except Err DB :=
  if returnQuantity < 1 then .error .validationError
  else
    match findHandover db hid with
    | none => .error .notFound
    | some h =>
      if h.employee ≠ callerId then .error .forbidden
      else if h.status ≠ .handed_over then .error .notActive
      else if h.quantity < returnQuantity then .error .returnQuantityExceeds
      else
        let newReturned : Int := h.returnedQuantity.getD 0 + returnQuantity
        let h' : HandOver :=
          { h with returnedQuantity := some newReturned
                   returnedBy := some callerId, returnDate := some now
                   status := if h.quantity ≤ newReturned then .returned else h.status }
        let db' := saveHandover db h'
        match findProduct db' h.product with
        | some p =>
          .ok (saveProduct db' { p with quantity := p.quantity + returnQuantity })
        | none => .ok db'

/-- POST /api/handovers/:id/approve (lines 381-435): manager/admin
approves a pending request.  Guards, in source order: record exists;
status is pending; the populated product has sufficient stock (the
source reads `handover.product.stock.quantity`, so a dangling product
reference is a server fault, modelled as notFound).  Effect: status
handed_over, handedOverBy and handOverDate set, stock decremented by
the handover quantity. -/
def approveHandover (db : DB) (hid callerId now : Nat) : Except Err DB :=
  match findHandover db hid with
  | none => .error .notFound
  | some h =>
    if h.status ≠ .pending then .error .notPending
    else
      match findProduct db h.product with
      | none => .error .notFound
      | some product =>
        if product.quantity < h.quantity then .error .insufficientStock
        else
          let h' : HandOver :=
            { h with status := .handed_over, handedOverBy := some callerId
                     handOverDate := some now }
          .ok (saveProduct (saveHandover db h')
                { product with quantity := product.quantity - h.quantity })

/-- POST /api/handovers/:id/reject (lines 440-483): manager/admin
rejects a pending request.  Guard: status is pending.  Effect: status
rejected, rejectedBy set, no stock mutation. -/
def rejectHandover (db : DB) (hid callerId : Nat) : Except Err DB :=
  match findHandover db hid with
  | none => .error .notFound
  | some h =>
    if h.status ≠ .pending then .error .notPending
    else
      .ok (saveHandover db { h with status := .rejected, rejectedBy := some callerId })

/-- DELETE /api/handovers/:id (lines 488-516): stock is restored only
for handed_over records whose product still resolves; then the record
is removed. -/
def deleteHandover (db : DB) (hid : Nat) : Except Err DB :=
  match findHandover db hid with
  | none => .error .notFound
  | some h =>
    let db' :=
      if h.status = .handed_over then
        match findProduct db h.product with
        | some p => saveProduct db { p with quantity := p.quantity + h.quantity }
        | none => db
      else db
    .ok { db' with handovers := db'.handovers.filter (fun x => x.id ≠ hid) }

/-- The two stock-adjustment operations of PUT /api/products/:id/stock
(src/routes/products.js lines 342-392); any other `operation` string is
rejected by the handler before the product lookup. -/
inductive StockOp where
  | add
  | subtract
deriving DecidableEq, Repr

/-- PUT /api/products/:id/stock (src/routes/products.js lines
342-392): direct stock adjustment.  Guards: quantity positive, product
exists, and for subtract the new quantity must not be negative. -/
def updateStock (db : DB) (pid : Nat) (op : StockOp) (quantity : Int) : Except Err DB :=
  if quantity ≤ 0 then .error .validationError
  else
    match findProduct db pid with
    | none => .error .notFound
    | some p =>
      match op with
      | .add => .ok (saveProduct db { p with quantity := p.quantity + quantity })
      | .subtract =>
        if p.quantity - quantity < 0 then .error .insufficientStock
        else .ok (saveProduct db { p with quantity := p.quantity - quantity })

/-- POST /api/products (src/routes/products.js lines 109-211) combined
with the pre-save hook of src/models/Product.js: the validator requires
stockQuantity to be a non-negative int, and the hook draws productId
from the incremented counter. -/
def createProduct (db : DB) (mid createdAt : Nat) (stockQuantity : Int) : Except Err DB :=
  if stockQuantity < 0 then .error .validationError
  else
    .ok { db with
            counterSeq := db.counterSeq + 1
            products := db.products ++
              [{ id := mid, productId := db.counterSeq + 1
                 quantity := stockQuantity, createdAt := createdAt }] }

/-- `Product.find().sort(\x7b createdAt: 1 \x7d)` in resetProductCounter. -/
def sortByCreatedAt (ps : List Product) : List Product :=
  ps.mergeSort (fun a b => decide (a.createdAt ≤ b.createdAt))

/-- The renumbering loop of resetProductCounter (src/routes/products.js
lines 321-328): the i-th product in creation order receives productId
i+1. -/
def renumber : Nat → List Product → List Product
  | _, [] => []
  | i, p :: ps => { p with productId := i } :: renumber (i + 1) ps

/-- resetProductCounter (src/routes/products.js lines 315-339):
renumber all products in createdAt order and reset the counter to the
product count. -/
def resetProductCounter (db : DB) : DB :=
  { db with products := renumber 1 (sortByCreatedAt db.products)
            counterSeq := db.products.length }

/-- DELETE /api/products/:id (src/routes/products.js lines 294-312):
delete the product, then resetProductCounter.  (The unused
ProductController.deleteProduct is not mounted by src/server.js; this
route is the only deletion path.) -/
def deleteProduct (db : DB) (pid : Nat) : Except Err DB :=
  match findProduct db pid with
  | none => .error .notFound
  | some _ =>
    .ok (resetProductCounter
          { db with products := db.products.filter (fun p => p.id ≠ pid) })

/-- One request against the API, with its parameters. -/
inductive Op where
  | createProduct (mid createdAt : Nat) (stockQuantity : Int)
  | updateStock (pid : Nat) (op : StockOp) (quantity : Int)
  | createDirectHandover (hid productId employeeId : Nat) (quantity : Int)
      (handedOverBy : Option Nat) (callerId now : Nat)
  | createHandoverRequest (hid productId : Nat) (quantity : Int) (callerId now : Nat)
  | approveHandover (hid callerId now : Nat)
  | rejectHandover (hid callerId : Nat)
  | returnHandover (hid callerId : Nat) (returnQuantity : Int) (now : Nat)
  | markReturnedByManager (hid callerId now : Nat)
  | deleteHandover (hid : Nat)
  | deleteProduct (pid : Nat)
deriving DecidableEq, Repr

/-- Run one request: an error response leaves the store untouched (in
every embedded handler all guard failures occur before the first
write). -/
def applyOp (db : DB) (op : Op) : DB :=
  let r : Except Err DB :=
    match op with
    | .createProduct mid createdAt q => createProduct db mid createdAt q
    | .updateStock pid op q => updateStock db pid op q
    | .createDirectHandover hid pid eid q hb c now =>
        createDirectHandover db hid pid eid q hb c now
    | .createHandoverRequest hid pid q c now => createHandoverRequest db hid pid q c now
    | .approveHandover hid c now => approveHandover db hid c now
    | .rejectHandover hid c => rejectHandover db hid c
    | .returnHandover hid c q now => returnHandover db hid c q now
    | .markReturnedByManager hid c now => markReturnedByManager db hid c now
    | .deleteHandover hid => deleteHandover db hid
    | .deleteProduct pid => deleteProduct db pid
  match r with
  | .ok db' => db'
  | .error _ => db

/-- Run a sequence of requests. -/
def applyOps (db : DB) (ops : List Op) : DB :=
  ops.foldl applyOp db

/-- Current stock of a product, 0 when the product does not exist. -/
def stockOf (db : DB) (pid : Nat) : Int :=
  ((findProduct db pid).map (fun p => p.quantity)).getD 0

/-- Sum of the quantities committed across all currently handed_over
records for a product (spec section 8, stock conservation). -/
def committedSum (db : DB) (pid : Nat) : Int :=
  ((db.handovers.filter
      (fun h => h.product = pid ∧ h.status = .handed_over)).map
    (fun h => h.quantity)).sum

/-- Well-formedness of a reachable store: every product has
non-negative stock and every handover commits a positive quantity
(both enforced by the creation guards). -/
def WF (db : DB) : Prop :=
  (∀ p ∈ db.products, 0 ≤ p.quantity) ∧ (∀ h ∈ db.handovers, 1 ≤ h.quantity)

/-! User model and the pre-save permission hook
(src/models/User.js). -/

/-- `enum: ['admin', 'manager', 'employee']`. -/
inductive Role where
  | admin
  | manager
  | employee
deriving DecidableEq, Repr

/-- The permissions sub-document of src/models/User.js. -/
structure Permissions where
  canViewProducts : Bool
  canAddProducts : Bool
  canEditProducts : Bool
  canDeleteProducts : Bool
  canManageProducts : Bool
  canViewOrders : Bool
  canManageOrders : Bool
  canManageUsers : Bool
  canRequestHandover : Bool
  canReturnHandover : Bool
deriving DecidableEq, Repr

/-- The fields of a user document that the pre-save hook reads or
writes. -/
structure User where
  email : String
  role : Role
  isActive : Bool
  permissions : Permissions
deriving DecidableEq, Repr

/-- The distinguished failsafe admin email (src/models/User.js line 3). -/
def FAILSAFE_EMAIL : String := "irtazamadadnaqvi@iwiz.com"

/-- The permission block assigned to the failsafe account by the
pre-save hook (src/models/User.js lines 123-134). -/
def failsafePermissions : Permissions :=
  { canViewProducts := true, canAddProducts := true
    canEditProducts := true, canDeleteProducts := true
    canManageProducts := true, canViewOrders := true
    canManageOrders := true, canManageUsers := true
    canRequestHandover := false, canReturnHandover := false }

/-- The role-to-flags mapping of the pre-save hook for non-failsafe
users (src/models/User.js lines 137-148). -/
def rolePermissions (r : Role) : Permissions :=
  { canViewProducts := true
    canAddProducts := r = .admin ∨ r = .manager
    canEditProducts := r = .admin ∨ r = .manager
    canDeleteProducts := r = .admin
    canManageProducts := r = .admin ∨ r = .manager
    canViewOrders := true
    canManageOrders := r = .admin ∨ r = .manager
    canManageUsers := r = .admin
    canRequestHandover := r = .employee
    canReturnHandover := r = .employee }

/-- userSchema.pre('save') (src/models/User.js lines 119-151): the
failsafe account is pinned to active admin with the full permission
block; every other user has permissions recomputed from role. -/
def preSave (u : User) : User :=
  if u.email = FAILSAFE_EMAIL then
    { u with isActive := true, role := .admin, permissions := failsafePermissions }
  else
    { u with permissions := rolePermissions u.role }

/-! Concrete stores used by the witnesses and counterexamples below. -/

/-- A product with stock 10. -/
def prod10 : Product := { id := 1, productId := 1, quantity := 10, createdAt := 0 }

/-- A store with one product (stock 10), one employee (user 7) and no
handovers. -/
def sampleDB : DB :=
  { products := [prod10], handovers := [], users := [7], counterSeq := 1 }

/-- A pending request for 5 units of product 1 by employee 7. -/
def pendingHO : HandOver :=
  { id := 100, product := 1, employee := 7, handedOverBy := none
    quantity := 5, returnedQuantity := none, status := .pending
    handOverDate := some 0, actualReturnDate := none, returnDate := none
    returnedBy := none, rejectedBy := none }

/-- sampleDB together with the pending request pendingHO. -/
def pendingDB : DB :=
  { products := [prod10], handovers := [pendingHO], users := [7], counterSeq := 1 }

/-- An active handover of 8 units with 3 units already returned, so
only 5 are outstanding. -/
def overHO : HandOver :=
  { id := 100, product := 1, employee := 7, handedOverBy := some 2
    quantity := 8, returnedQuantity := some 3, status := .handed_over
    handOverDate := some 0, actualReturnDate := none, returnDate := none
    returnedBy := none, rejectedBy := none }

/-- A store matching overHO: 8 units are out, 3 of them already back
in stock (stock 5 = 10 - 8 + 3). -/
def overReturnDB : DB :=
  { products := [{ id := 1, productId := 1, quantity := 5, createdAt := 0 }]
    handovers := [overHO], users := [7], counterSeq := 1 }

/-- The two-step sequence that breaks stock conservation: an employee
request (which commits no stock) immediately marked returned by a
manager (which releases stock that was never committed). -/
def leakOps : List Op :=
  [.createHandoverRequest 100 1 5 7 0, .markReturnedByManager 100 2 1]

/-- pendingDB after a manager approves the pending request. -/
def approvedDB : DB := applyOp pendingDB (.approveHandover 100 2 1)

/-- Three products created in the order 2, 1, 3 (by createdAt), with
ids out of creation order. -/
def seqDB : DB :=
  { products := [{ id := 1, productId := 1, quantity := 1, createdAt := 5 },
                 { id := 2, productId := 2, quantity := 2, createdAt := 3 },
                 { id := 3, productId := 3, quantity := 3, createdAt := 9 }]
    handovers := [], users := [], counterSeq := 3 }

/-- A sequence exercising every stock-mutating operation from
sampleDB: direct issue, partial return, manager return, stock
adjustments, a second request approved and deleted. -/
def demoOps : List Op :=
  [.createDirectHandover 100 1 7 4 none 2 0,
   .returnHandover 100 7 3 1,
   .markReturnedByManager 100 2 2,
   .updateStock 1 .subtract 6,
   .updateStock 1 .add 2,
   .createHandoverRequest 101 1 5 7 3,
   .approveHandover 101 2 4,
   .deleteHandover 101,
   .createProduct 2 7 0,
   .deleteProduct 2]

/-- Erase the field that renumbering rewrites, for stating that
everything else about the surviving products is preserved by the
re-sequencing pass. -/
def stripPid (p : Product) : Product := { p with productId := 0 }

/-- The failsafe account arriving at save time as an inactive employee
with employee permissions. -/
def failsafeUser : User :=
  { email := FAILSAFE_EMAIL, role := .employee, isActive := false
    permissions := rolePermissions .employee }

/-! Helper lemmas about the store primitives. -/

/-- Replacing the document that carries the same key as a previously
found document makes a later lookup return the replacement. -/
theorem find?_map_save {α : Type _} (l : List α) (key : α → Nat) (k : Nat) (a b : α)
    (hfind : l.find? (fun x => key x = k) = some a) (hk : key b = key a) :
    (l.map (fun x => if key x = key b then b else x)).find? (fun x => key x = k) = some b := by
  have hak : key a = k := by
    have := List.find?_some hfind
    simpa using this
  have hbk : key b = k := by rw [hk, hak]
  induction l with
  | nil => simp at hfind
  | cons x xs ih =>
    rw [List.find?_cons] at hfind
    by_cases hx : key x = k
    · simp [List.map_cons, hx, hbk, List.find?_cons]
    · have hxb : ¬ (key x = key b) := by rw [hbk]; exact hx
      have hrec := ih (by simpa [hx] using hfind)
      simp [List.map_cons, List.find?_cons, hxb, hx, hrec]

theorem findProduct_saveProduct (db : DB) (pid : Nat) (p p' : Product)
    (hfind : findProduct db pid = some p) (hid : p'.id = p.id) :
    findProduct (saveProduct db p') pid = some p' :=
  find?_map_save db.products (fun q => q.id) pid p p' hfind hid

theorem findHandover_saveHandover (db : DB) (hid : Nat) (h h' : HandOver)
    (hfind : findHandover db hid = some h) (hidq : h'.id = h.id) :
    findHandover (saveHandover db h') hid = some h' :=
  find?_map_save db.handovers (fun x => x.id) hid h h' hfind hidq

theorem mem_products_saveProduct {db : DB} {p q : Product}
    (hq : q ∈ (saveProduct db p).products) : q ∈ db.products ∨ q = p := by
  simp only [saveProduct, List.mem_map] at hq
  obtain ⟨r, hr, hq⟩ := hq
  by_cases hid : r.id = p.id
  · right; rw [← hq, if_pos hid]
  · left; rw [← hq, if_neg hid]; exact hr

theorem mem_handovers_saveHandover {db : DB} {h x : HandOver}
    (hx : x ∈ (saveHandover db h).handovers) : x ∈ db.handovers ∨ x = h := by
  simp only [saveHandover, List.mem_map] at hx
  obtain ⟨r, hr, hx⟩ := hx
  by_cases hid : r.id = h.id
  · right; rw [← hx, if_pos hid]
  · left; rw [← hx, if_neg hid]; exact hr

theorem mem_renumber {l : List Product} {i : Nat} {q : Product}
    (hq : q ∈ renumber i l) : ∃ p ∈ l, q.quantity = p.quantity := by
  induction l generalizing i with
  | nil => simp [renumber] at hq
  | cons x xs ih =>
    simp only [renumber, List.mem_cons] at hq
    rcases hq with hq | hq
    · exact ⟨x, List.mem_cons_self x xs, by rw [hq]⟩
    · obtain ⟨p, hp, hpq⟩ := ih hq
      exact ⟨p, List.mem_cons_of_mem x hp, hpq⟩

theorem mem_sortByCreatedAt {l : List Product} {q : Product} :
    q ∈ sortByCreatedAt l ↔ q ∈ l :=
  (List.mergeSort_perm l _).mem_iff

/-! Preservation of well-formedness by every operation. -/

theorem WF_saveProduct {db : DB} {p : Product} (hwf : WF db) (hp : 0 ≤ p.quantity) :
    WF (saveProduct db p) := by
  refine ⟨fun q hq => ?_, fun h hh => hwf.2 h hh⟩
  rcases mem_products_saveProduct hq with h | h
  · exact hwf.1 q h
  · rw [h]; exact hp

theorem WF_saveHandover {db : DB} {h : HandOver} (hwf : WF db) (hq : 1 ≤ h.quantity) :
    WF (saveHandover db h) := by
  refine ⟨fun q hq' => hwf.1 q hq', fun x hx => ?_⟩
  rcases mem_handovers_saveHandover hx with h' | h'
  · exact hwf.2 x h'
  · rw [h']; exact hq

theorem WF_createProduct {db db' : DB} {mid cA : Nat} {q : Int}
    (hok : createProduct db mid cA q = .ok db') (hwf : WF db) : WF db' := by
  unfold createProduct at hok
  split at hok
  · exact absurd hok (by simp)
  · rename_i hq
    injection hok with h1
    subst h1
    refine ⟨fun p hp => ?_, fun h hh => hwf.2 h hh⟩
    rcases List.mem_append.mp hp with h | h
    · exact hwf.1 p h
    · simp only [List.mem_singleton] at h
      rw [h]
      exact le_of_not_lt hq

theorem WF_updateStock {db db' : DB} {pid : Nat} {op : StockOp} {q : Int}
    (hok : updateStock db pid op q = .ok db') (hwf : WF db) : WF db' := by
  unfold updateStock at hok
  split at hok
  · exact absurd hok (by simp)
  · rename_i hq
    cases hfind : findProduct db pid with
    | none => rw [hfind] at hok; exact absurd hok (by simp)
    | some p =>
      rw [hfind] at hok
      have hp : p ∈ db.products := List.mem_of_find?_eq_some hfind
      have hp0 : 0 ≤ p.quantity := hwf.1 p hp
      cases op with
      | add =>
        simp only [Except.ok.injEq] at hok
        subst hok
        refine WF_saveProduct hwf ?_
        show 0 ≤ p.quantity + q
        omega
      | subtract =>
        simp only at hok
        split at hok
        · exact absurd hok (by simp)
        · rename_i hsub
          simp only [Except.ok.injEq] at hok
          subst hok
          refine WF_saveProduct hwf ?_
          show 0 ≤ p.quantity - q
          omega

theorem WF_appendHandover {db : DB} {h : HandOver} (hwf : WF db) (hq : 1 ≤ h.quantity) :
    WF { db with handovers := db.handovers ++ [h] } := by
  refine ⟨fun p hp => hwf.1 p hp, fun x hx => ?_⟩
  rcases List.mem_append.mp hx with h' | h'
  · exact hwf.2 x h'
  · simp only [List.mem_singleton] at h'
    rw [h']; exact hq

theorem WF_createDirectHandover {db db' : DB} {hid pid eid : Nat} {q : Int}
    {hb : Option Nat} {c now : Nat}
    (hok : createDirectHandover db hid pid eid q hb c now = .ok db') (hwf : WF db) :
    WF db' := by
  unfold createDirectHandover at hok
  split at hok
  · exact absurd hok (by simp)
  · rename_i hq1
    cases hfind : findProduct db pid with
    | none => rw [hfind] at hok; exact absurd hok (by simp)
    | some product =>
      rw [hfind] at hok
      simp only at hok
      split at hok
      · exact absurd hok (by simp)
      · rename_i hstock
        split at hok
        · exact absurd hok (by simp)
        · simp only [Except.ok.injEq] at hok
          subst hok
          refine WF_saveProduct (WF_appendHandover hwf ?_) ?_
          · show 1 ≤ q
            omega
          · show 0 ≤ product.quantity - q
            omega

theorem WF_createHandoverRequest {db db' : DB} {hid pid : Nat} {q : Int} {c now : Nat}
    (hok : createHandoverRequest db hid pid q c now = .ok db') (hwf : WF db) :
    WF db' := by
  unfold createHandoverRequest at hok
  split at hok
  · exact absurd hok (by simp)
  · rename_i hq1
    cases hfind : findProduct db pid with
    | none => rw [hfind] at hok; exact absurd hok (by simp)
    | some product =>
      rw [hfind] at hok
      simp only [Except.ok.injEq] at hok
      subst hok
      refine WF_appendHandover hwf ?_
      show 1 ≤ q
      omega

theorem WF_approveHandover {db db' : DB} {hid c now : Nat}
    (hok : approveHandover db hid c now = .ok db') (hwf : WF db) : WF db' := by
  unfold approveHandover at hok
  cases hfind : findHandover db hid with
  | none => rw [hfind] at hok; exact absurd hok (by simp)
  | some h =>
    rw [hfind] at hok
    simp only at hok
    split at hok
    · exact absurd hok (by simp)
    · rename_i hpend
      cases hp : findProduct db h.product with
      | none => rw [hp] at hok; exact absurd hok (by simp)
      | some product =>
        rw [hp] at hok
        simp only at hok
        split at hok
        · exact absurd hok (by simp)
        · rename_i hstock
          simp only [Except.ok.injEq] at hok
          subst hok
          have hq : 1 ≤ h.quantity := hwf.2 h (List.mem_of_find?_eq_some hfind)
          refine WF_saveProduct (WF_saveHandover hwf hq) ?_
          show 0 ≤ product.quantity - h.quantity
          omega

theorem WF_rejectHandover {db db' : DB} {hid c : Nat}
    (hok : rejectHandover db hid c = .ok db') (hwf : WF db) : WF db' := by
  unfold rejectHandover at hok
  cases hfind : findHandover db hid with
  | none => rw [hfind] at hok; exact absurd hok (by simp)
  | some h =>
    rw [hfind] at hok
    simp only at hok
    split at hok
    · exact absurd hok (by simp)
    · simp only [Except.ok.injEq] at hok
      subst hok
      exact WF_saveHandover hwf (hwf.2 h (List.mem_of_find?_eq_some hfind))

theorem WF_returnHandover {db db' : DB} {hid c : Nat} {rq : Int} {now : Nat}
    (hok : returnHandover db hid c rq now = .ok db') (hwf : WF db) : WF db' := by
  unfold returnHandover at hok
  split at hok
  · exact absurd hok (by simp)
  · rename_i hrq
    cases hfind : findHandover db hid with
    | none => rw [hfind] at hok; exact absurd hok (by simp)
    | some h =>
      rw [hfind] at hok
      simp only at hok
      split at hok
      · exact absurd hok (by simp)
      · split at hok
        · exact absurd hok (by simp)
        · split at hok
          · exact absurd hok (by simp)
          · rename_i hemp hact hexc
            have hq : 1 ≤ h.quantity := hwf.2 h (List.mem_of_find?_eq_some hfind)
            have hwf' := WF_saveHandover (h := { h with
              returnedQuantity := some (h.returnedQuantity.getD 0 + rq)
              returnedBy := some c, returnDate := some now
              status := if h.quantity ≤ h.returnedQuantity.getD 0 + rq then .returned else h.status })
              hwf hq
            cases hp : findProduct (saveHandover db _) h.product with
            | none =>
              rw [hp] at hok
              simp only [Except.ok.injEq] at hok
              subst hok
              exact hwf'
            | some p =>
              rw [hp] at hok
              simp only [Except.ok.injEq] at hok
              subst hok
              have hp0 : 0 ≤ p.quantity := hwf'.1 p (List.mem_of_find?_eq_some hp)
              refine WF_saveProduct hwf' ?_
              show 0 ≤ p.quantity + rq
              omega

theorem WF_markReturnedByManager {db db' : DB} {hid c now : Nat}
    (hok : markReturnedByManager db hid c now = .ok db') (hwf : WF db) : WF db' := by
  unfold markReturnedByManager at hok
  cases hfind : findHandover db hid with
  | none => rw [hfind] at hok; exact absurd hok (by simp)
  | some h =>
    rw [hfind] at hok
    simp only at hok
    split at hok
    · exact absurd hok (by simp)
    · have hq : 1 ≤ h.quantity := hwf.2 h (List.mem_of_find?_eq_some hfind)
      have hwf' := WF_saveHandover (h := { h with
        status := .returned, actualReturnDate := some now, returnedBy := some c })
        hwf hq
      cases hp : findProduct (saveHandover db _) h.product with
      | none =>
        rw [hp] at hok
        simp only [Except.ok.injEq] at hok
        subst hok
        exact hwf'
      | some p =>
        rw [hp] at hok
        simp only [Except.ok.injEq] at hok
        subst hok
        have hp0 : 0 ≤ p.quantity := hwf'.1 p (List.mem_of_find?_eq_some hp)
        refine WF_saveProduct hwf' ?_
        show 0 ≤ p.quantity + h.quantity
        omega

theorem WF_handoversFilter {db : DB} (hwf : WF db) (f : HandOver → Bool) :
    WF { db with handovers := db.handovers.filter f } := by
  refine ⟨fun p hp => hwf.1 p hp, fun x hx => ?_⟩
  exact hwf.2 x (List.mem_of_mem_filter hx)

theorem WF_deleteHandover {db db' : DB} {hid : Nat}
    (hok : deleteHandover db hid = .ok db') (hwf : WF db) : WF db' := by
  unfold deleteHandover at hok
  cases hfind : findHandover db hid with
  | none => rw [hfind] at hok; exact absurd hok (by simp)
  | some h =>
    rw [hfind] at hok
    simp only [Except.ok.injEq] at hok
    subst hok
    have hq : 1 ≤ h.quantity := hwf.2 h (List.mem_of_find?_eq_some hfind)
    split
    · rename_i hst
      cases hp : findProduct db h.product with
      | none => exact WF_handoversFilter hwf _
      | some p =>
        have hp0 : 0 ≤ p.quantity := hwf.1 p (List.mem_of_find?_eq_some hp)
        refine WF_handoversFilter (WF_saveProduct hwf ?_) _
        show 0 ≤ p.quantity + h.quantity
        omega
    · exact WF_handoversFilter hwf _

theorem WF_deleteProduct {db db' : DB} {pid : Nat}
    (hok : deleteProduct db pid = .ok db') (hwf : WF db) : WF db' := by
  unfold deleteProduct at hok
  cases hfind : findProduct db pid with
  | none => rw [hfind] at hok; exact absurd hok (by simp)
  | some p =>
    rw [hfind] at hok
    simp only [Except.ok.injEq] at hok
    subst hok
    refine ⟨fun q hq => ?_, fun h hh => hwf.2 h hh⟩
    obtain ⟨r, hr, hrq⟩ := mem_renumber hq
    have hr' : r ∈ db.products := List.mem_of_mem_filter (mem_sortByCreatedAt.mp hr)
    rw [hrq]
    exact hwf.1 r hr'

/-- Every request preserves well-formedness: guard failures leave the
store untouched, and each successful handler is covered by its
preservation lemma. -/
theorem WF_applyOp (db : DB) (op : Op) (hwf : WF db) : WF (applyOp db op) := by
  cases op with
  | createProduct mid cA q =>
    simp only [applyOp]
    cases hr : createProduct db mid cA q with
    | ok db' => exact WF_createProduct hr hwf
    | error e => exact hwf
  | updateStock pid sop q =>
    simp only [applyOp]
    cases hr : updateStock db pid sop q with
    | ok db' => exact WF_updateStock hr hwf
    | error e => exact hwf
  | createDirectHandover hid pid eid q hb c now =>
    simp only [applyOp]
    cases hr : createDirectHandover db hid pid eid q hb c now with
    | ok db' => exact WF_createDirectHandover hr hwf
    | error e => exact hwf
  | createHandoverRequest hid pid q c now =>
    simp only [applyOp]
    cases hr : createHandoverRequest db hid pid q c now with
    | ok db' => exact WF_createHandoverRequest hr hwf
    | error e => exact hwf
  | approveHandover hid c now =>
    simp only [applyOp]
    cases hr : approveHandover db hid c now with
    | ok db' => exact WF_approveHandover hr hwf
    | error e => exact hwf
  | rejectHandover hid c =>
    simp only [applyOp]
    cases hr : rejectHandover db hid c with
    | ok db' => exact WF_rejectHandover hr hwf
    | error e => exact hwf
  | returnHandover hid c q now =>
    simp only [applyOp]
    cases hr : returnHandover db hid c q now with
    | ok db' => exact WF_returnHandover hr hwf
    | error e => exact hwf
  | markReturnedByManager hid c now =>
    simp only [applyOp]
    cases hr : markReturnedByManager db hid c now with
    | ok db' => exact WF_markReturnedByManager hr hwf
    | error e => exact hwf
  | deleteHandover hid =>
    simp only [applyOp]
    cases hr : deleteHandover db hid with
    | ok db' => exact WF_deleteHandover hr hwf
    | error e => exact hwf
  | deleteProduct pid =>
    simp only [applyOp]
    cases hr : deleteProduct db pid with
    | ok db' => exact WF_deleteProduct hr hwf
    | error e => exact hwf

theorem WF_applyOps (db : DB) (ops : List Op) (hwf : WF db) : WF (applyOps db ops) := by
  induction ops generalizing db with
  | nil => exact hwf
  | cons op ops ih => exact ih (applyOp db op) (WF_applyOp db op hwf)

/-! Further helper lemmas for the transition characterizations. -/

theorem findProduct_saveHandover (db : DB) (h : HandOver) (pid : Nat) :
    findProduct (saveHandover db h) pid = findProduct db pid := rfl

theorem stockOf_saveProduct (db : DB) (pid : Nat) (p p' : Product)
    (hfind : findProduct db pid = some p) (hid : p'.id = p.id) :
    stockOf (saveProduct db p') pid = p'.quantity := by
  unfold stockOf
  rw [findProduct_saveProduct db pid p p' hfind hid]
  rfl

theorem find?_filter_ne_none (l : List HandOver) (hid : Nat) :
    (l.filter (fun x => x.id ≠ hid)).find? (fun x => x.id = hid) = none := by
  rw [List.find?_eq_none]
  intro x hx
  have := List.of_mem_filter hx
  simpa using this

theorem findHandover_create (db : DB) (hid : Nat) (h : HandOver)
    (hfresh : findHandover db hid = none) (hh : h.id = hid) :
    findHandover { db with handovers := db.handovers ++ [h] } hid = some h := by
  unfold findHandover at hfresh ⊢
  rw [List.find?_append, hfresh]
  simp [hh]

theorem approveHandover_ok_status {db db' : DB} {hid c now : Nat}
    (hok : approveHandover db hid c now = .ok db') :
    ∃ h, findHandover db' hid = some h ∧ h.status = .handed_over := by
  unfold approveHandover at hok
  cases hfind : findHandover db hid with
  | none => rw [hfind] at hok; exact absurd hok (by simp)
  | some h =>
    rw [hfind] at hok
    simp only at hok
    split at hok
    · exact absurd hok (by simp)
    · cases hp : findProduct db h.product with
      | none => rw [hp] at hok; exact absurd hok (by simp)
      | some product =>
        rw [hp] at hok
        simp only at hok
        split at hok
        · exact absurd hok (by simp)
        · simp only [Except.ok.injEq] at hok
          subst hok
          exact ⟨_, findHandover_saveHandover db hid h _ hfind rfl, rfl⟩

theorem rejectHandover_ok_status {db db' : DB} {hid c : Nat}
    (hok : rejectHandover db hid c = .ok db') :
    ∃ h, findHandover db' hid = some h ∧ h.status = .rejected := by
  unfold rejectHandover at hok
  cases hfind : findHandover db hid with
  | none => rw [hfind] at hok; exact absurd hok (by simp)
  | some h =>
    rw [hfind] at hok
    simp only at hok
    split at hok
    · exact absurd hok (by simp)
    · simp only [Except.ok.injEq] at hok
      subst hok
      exact ⟨_, findHandover_saveHandover db hid h _ hfind rfl, rfl⟩

theorem map_productId_renumber (i : Nat) (l : List Product) :
    (renumber i l).map (fun p => p.productId) = List.range' i l.length := by
  induction l generalizing i with
  | nil => rfl
  | cons x xs ih => simp [renumber, List.range'_succ, ih]

theorem length_renumber (i : Nat) (l : List Product) :
    (renumber i l).length = l.length := by
  induction l generalizing i with
  | nil => rfl
  | cons x xs ih => simp [renumber, ih]

theorem map_stripPid_renumber (i : Nat) (l : List Product) :
    (renumber i l).map stripPid = l.map stripPid := by
  induction l generalizing i with
  | nil => rfl
  | cons x xs ih => simp [renumber, ih, stripPid]

theorem map_createdAt_renumber (i : Nat) (l : List Product) :
    (renumber i l).map (fun p => p.createdAt) = l.map (fun p => p.createdAt) := by
  induction l generalizing i with
  | nil => rfl
  | cons x xs ih => simp [renumber, ih]

/-! The claims. -/

/-- C1 (code bug): stock conservation fails.  The spec requires that
the sum of quantities across currently handed_over records plus
current stock stays equal to the externally set quantity (10 here),
but a manager return applied to a pending request releases stock that
was never committed: after leakOps the left side is 15, with no direct
adjustment accounting for the difference. -/
theorem stock_conservation_violated :
    committedSum sampleDB 1 + stockOf sampleDB 1 = 10 ∧
    committedSum (applyOps sampleDB leakOps) 1 +
      stockOf (applyOps sampleDB leakOps) 1 = 15 := by
  decide

/-- C2: starting from any well-formed store, no sequence of operations
(product creation, direct stock add or subtract, direct handover,
request, approval, rejection, employee and manager returns, handover
deletion, product deletion) can drive any product stock negative. -/
theorem stock_never_negative (db : DB) (ops : List Op) (hwf : WF db) :
    ∀ p ∈ (applyOps db ops).products, 0 ≤ p.quantity :=
  (WF_applyOps db ops hwf).1

theorem stock_never_negative_witness :
    WF sampleDB ∧ ∀ p ∈ (applyOps sampleDB demoOps).products, 0 ≤ p.quantity :=
  ⟨by unfold WF; exact ⟨by decide, by decide⟩,
   stock_never_negative sampleDB demoOps (by unfold WF; exact ⟨by decide, by decide⟩)⟩

/-- C3 counterexample: the employee-return guard compares against the
full borrowed quantity, not the outstanding remainder.  In
overReturnDB, 8 were borrowed and 3 already returned, so only 5 are
outstanding; the claim predicts that returning 8 fails with a domain
error and changes nothing, but the call succeeds, pushes
returnedQuantity to 11 and adds all 8 units back to stock. -/
theorem returnHandover_outstanding_cex :
    (returnHandover overReturnDB 100 7 8 1).isOk = true ∧
    stockOf (applyOp overReturnDB (.returnHandover 100 7 8 1)) 1 = 13 ∧
    (findHandover (applyOp overReturnDB (.returnHandover 100 7 8 1)) 100).map
      (fun h => h.returnedQuantity) = some (some 11) := by
  decide

/-- C3 (amended): an employee-initiated return succeeds iff the record
exists, the caller is the borrowing employee, the status is
handed_over and 1 ≤ returnQuantity ≤ the full borrowed quantity (not
the outstanding remainder); on success stock grows by returnQuantity
and returnedQuantity accumulates, with status becoming returned once
returnedQuantity reaches quantity.  When returnQuantity exceeds the
borrowed quantity the call fails and nothing changes. -/
theorem returnHandover_spec (db : DB) (hid c : Nat) (rq : Int) (now : Nat)
    (h : HandOver) (p : Product)
    (hfind : findHandover db hid = some h)
    (hemp : h.employee = c) (hst : h.status = .handed_over)
    (hp : findProduct db h.product = some p) :
    (1 ≤ rq → rq ≤ h.quantity →
      ∃ db', returnHandover db hid c rq now = .ok db' ∧
        stockOf db' h.product = p.quantity + rq ∧
        findHandover db' hid =
          some { h with returnedQuantity := some (h.returnedQuantity.getD 0 + rq)
                        returnedBy := some c
                        returnDate := some now
                        status := if h.quantity ≤ h.returnedQuantity.getD 0 + rq
                                  then .returned else .handed_over }) ∧
    (1 ≤ rq → h.quantity < rq →
      returnHandover db hid c rq now = .error .returnQuantityExceeds ∧
      applyOp db (.returnHandover hid c rq now) = db) := by
  constructor
  · intro hrq1 hrq2
    have heq : returnHandover db hid c rq now =
        .ok (saveProduct (saveHandover db
              { h with returnedQuantity := some (h.returnedQuantity.getD 0 + rq)
                       returnedBy := some c
                       returnDate := some now
                       status := if h.quantity ≤ h.returnedQuantity.getD 0 + rq
                                 then .returned else .handed_over })
            { p with quantity := p.quantity + rq }) := by
      simp [returnHandover, hfind, hemp, hst, hp, not_lt.mpr hrq2, not_lt.mpr hrq1,
            findProduct_saveHandover]
    refine ⟨_, heq, ?_, ?_⟩
    · have hp2 : findProduct (saveHandover db
          { h with returnedQuantity := some (h.returnedQuantity.getD 0 + rq)
                   returnedBy := some c
                   returnDate := some now
                   status := if h.quantity ≤ h.returnedQuantity.getD 0 + rq
                             then .returned else .handed_over }) h.product = some p := hp
      rw [stockOf_saveProduct _ _ p { p with quantity := p.quantity + rq } hp2 rfl]
    · exact findHandover_saveHandover db hid h _ hfind rfl
  · intro hrq1 hlt
    have heq : returnHandover db hid c rq now = .error .returnQuantityExceeds := by
      simp [returnHandover, hfind, hemp, hst, hlt, not_lt.mpr hrq1]
    exact ⟨heq, by simp [applyOp, heq]⟩

theorem returnHandover_spec_witness :
    (1 ≤ (3 : Int) → (3 : Int) ≤ overHO.quantity →
      ∃ db', returnHandover overReturnDB 100 7 3 1 = .ok db' ∧
        stockOf db' overHO.product = 5 + 3 ∧
        findHandover db' 100 =
          some { overHO with returnedQuantity := some (overHO.returnedQuantity.getD 0 + 3)
                             returnedBy := some 7
                             returnDate := some 1
                             status := if overHO.quantity ≤ overHO.returnedQuantity.getD 0 + 3
                                       then .returned else .handed_over }) ∧
    (1 ≤ (3 : Int) → overHO.quantity < 3 →
      returnHandover overReturnDB 100 7 3 1 = .error .returnQuantityExceeds ∧
      applyOp overReturnDB (.returnHandover 100 7 3 1) = overReturnDB) :=
  returnHandover_spec overReturnDB 100 7 3 1 overHO
    { id := 1, productId := 1, quantity := 5, createdAt := 0 }
    (by decide) (by decide) (by decide) (by decide)

/-- C4 counterexample: the claim predicts that a manager return on a
handover that is not handed_over fails with a domain error and no
stock mutation; but on the pending request in pendingDB the call
succeeds and adds the never-committed 5 units to stock. -/
theorem markReturnedByManager_pending_cex :
    (findHandover pendingDB 100).map (fun h => h.status) = some .pending ∧
    (markReturnedByManager pendingDB 100 2 1).isOk = true ∧
    stockOf (applyOp pendingDB (.markReturnedByManager 100 2 1)) 1 = 15 := by
  decide

/-- C4 (amended): a manager return fails only when the status is
already returned; on any other status (pending, handed_over or
rejected) it succeeds, setting status returned with returnedBy and
actualReturnDate, and adding the full handover quantity to stock.
When the status is returned the call fails and nothing changes. -/
theorem markReturnedByManager_spec (db : DB) (hid c now : Nat) (h : HandOver) (p : Product)
    (hfind : findHandover db hid = some h) (hp : findProduct db h.product = some p) :
    (h.status ≠ .returned →
      ∃ db', markReturnedByManager db hid c now = .ok db' ∧
        stockOf db' h.product = p.quantity + h.quantity ∧
        findHandover db' hid =
          some { h with status := .returned
                        actualReturnDate := some now
                        returnedBy := some c }) ∧
    (h.status = .returned →
      markReturnedByManager db hid c now = .error .alreadyReturned ∧
      applyOp db (.markReturnedByManager hid c now) = db) := by
  constructor
  · intro hst
    have heq : markReturnedByManager db hid c now =
        .ok (saveProduct (saveHandover db
              { h with status := .returned
                       actualReturnDate := some now
                       returnedBy := some c })
            { p with quantity := p.quantity + h.quantity }) := by
      simp [markReturnedByManager, hfind, hst, hp, findProduct_saveHandover]
    refine ⟨_, heq, ?_, ?_⟩
    · have hp2 : findProduct (saveHandover db
          { h with status := .returned
                   actualReturnDate := some now
                   returnedBy := some c }) h.product = some p := hp
      rw [stockOf_saveProduct _ _ p { p with quantity := p.quantity + h.quantity } hp2 rfl]
    · exact findHandover_saveHandover db hid h _ hfind rfl
  · intro hst
    have heq : markReturnedByManager db hid c now = .error .alreadyReturned := by
      simp [markReturnedByManager, hfind, hst]
    exact ⟨heq, by simp [applyOp, heq]⟩

theorem markReturnedByManager_spec_witness :
    (pendingHO.status ≠ .returned →
      ∃ db', markReturnedByManager pendingDB 100 2 1 = .ok db' ∧
        stockOf db' pendingHO.product = prod10.quantity + pendingHO.quantity ∧
        findHandover db' 100 =
          some { pendingHO with status := .returned
                                actualReturnDate := some 1
                                returnedBy := some 2 }) ∧
    (pendingHO.status = .returned →
      markReturnedByManager pendingDB 100 2 1 = .error .alreadyReturned ∧
      applyOp pendingDB (.markReturnedByManager 100 2 1) = pendingDB) :=
  markReturnedByManager_spec pendingDB 100 2 1 pendingHO prod10 (by decide) (by decide)

/-- C5: approving a pending request with sufficient stock decrements
stock by the handover quantity and moves the record to handed_over
with handedOverBy and handOverDate set; with insufficient stock the
call fails with insufficientStock and nothing changes. -/
theorem approveHandover_spec (db : DB) (hid c now : Nat) (h : HandOver) (p : Product)
    (hfind : findHandover db hid = some h) (hst : h.status = .pending)
    (hp : findProduct db h.product = some p) :
    (h.quantity ≤ p.quantity →
      ∃ db', approveHandover db hid c now = .ok db' ∧
        stockOf db' h.product = p.quantity - h.quantity ∧
        findHandover db' hid =
          some { h with status := .handed_over, handedOverBy := some c, handOverDate := some now }) ∧
    (p.quantity < h.quantity →
      approveHandover db hid c now = .error .insufficientStock ∧
      applyOp db (.approveHandover hid c now) = db) := by
  constructor
  · intro hle
    have heq : approveHandover db hid c now =
        .ok (saveProduct (saveHandover db
              { h with status := .handed_over
                       handedOverBy := some c
                       handOverDate := some now })
            { p with quantity := p.quantity - h.quantity }) := by
      simp [approveHandover, hfind, hst, hp, not_lt.mpr hle]
    refine ⟨_, heq, ?_, ?_⟩
    · have hp2 : findProduct (saveHandover db
          { h with status := .handed_over
                   handedOverBy := some c
                   handOverDate := some now }) h.product = some p := hp
      rw [stockOf_saveProduct _ _ p { p with quantity := p.quantity - h.quantity } hp2 rfl]
    · exact findHandover_saveHandover db hid h _ hfind rfl
  · intro hlt
    have heq : approveHandover db hid c now = .error .insufficientStock := by
      simp [approveHandover, hfind, hst, hp, hlt]
    exact ⟨heq, by simp [applyOp, heq]⟩

theorem approveHandover_spec_witness :
    (pendingHO.quantity ≤ prod10.quantity →
      ∃ db', approveHandover pendingDB 100 2 1 = .ok db' ∧
        stockOf db' pendingHO.product = prod10.quantity - pendingHO.quantity ∧
        findHandover db' 100 =
          some { pendingHO with status := .handed_over, handedOverBy := some 2, handOverDate := some 1 }) ∧
    (prod10.quantity < pendingHO.quantity →
      approveHandover pendingDB 100 2 1 = .error .insufficientStock ∧
      applyOp pendingDB (.approveHandover 100 2 1) = pendingDB) :=
  approveHandover_spec pendingDB 100 2 1 pendingHO prod10 (by decide) (by decide) (by decide)

/-- C6: once a first approve or reject has moved a handover out of
pending, a second approve or reject on the same id fails with the
not-pending domain error and performs no mutation at all. -/
theorem second_approve_or_reject_fails (db db' : DB) (hid c1 now1 c2 now2 : Nat)
    (hfirst : approveHandover db hid c1 now1 = .ok db' ∨ rejectHandover db hid c1 = .ok db') :
    approveHandover db' hid c2 now2 = .error .notPending ∧
    applyOp db' (.approveHandover hid c2 now2) = db' ∧
    rejectHandover db' hid c2 = .error .notPending ∧
    applyOp db' (.rejectHandover hid c2) = db' := by
  have hstat : ∃ h, findHandover db' hid = some h ∧ h.status ≠ .pending := by
    rcases hfirst with hok | hok
    · obtain ⟨h, hf, hs⟩ := approveHandover_ok_status hok
      exact ⟨h, hf, by rw [hs]; intro hc; cases hc⟩
    · obtain ⟨h, hf, hs⟩ := rejectHandover_ok_status hok
      exact ⟨h, hf, by rw [hs]; intro hc; cases hc⟩
  obtain ⟨h, hf, hs⟩ := hstat
  have ha : approveHandover db' hid c2 now2 = .error .notPending := by
    simp [approveHandover, hf, hs]
  have hr : rejectHandover db' hid c2 = .error .notPending := by
    simp [rejectHandover, hf, hs]
  exact ⟨ha, by simp [applyOp, ha], hr, by simp [applyOp, hr]⟩

theorem second_approve_or_reject_fails_witness :
    approveHandover approvedDB 100 3 2 = .error .notPending ∧
    applyOp approvedDB (.approveHandover 100 3 2) = approvedDB ∧
    rejectHandover approvedDB 100 3 = .error .notPending ∧
    applyOp approvedDB (.rejectHandover 100 3) = approvedDB :=
  second_approve_or_reject_fails pendingDB approvedDB 100 2 1 3 2 (Or.inl rfl)

/-- C7: deleting a handed_over handover first adds its quantity back to
the product stock and then removes the record; deleting a record in
any other status removes it without touching the products. -/
theorem deleteHandover_spec (db : DB) (hid : Nat) (h : HandOver) (p : Product)
    (hfind : findHandover db hid = some h) (hp : findProduct db h.product = some p) :
    (h.status = .handed_over →
      ∃ db', deleteHandover db hid = .ok db' ∧
        stockOf db' h.product = p.quantity + h.quantity ∧
        findHandover db' hid = none) ∧
    (h.status ≠ .handed_over →
      ∃ db', deleteHandover db hid = .ok db' ∧
        db'.products = db.products ∧ findHandover db' hid = none) := by
  constructor
  · intro hst
    have heq : deleteHandover db hid =
        .ok { saveProduct db { p with quantity := p.quantity + h.quantity } with
                handovers :=
                  (saveProduct db { p with quantity := p.quantity + h.quantity }).handovers.filter
                    (fun x => x.id ≠ hid) } := by
      simp [deleteHandover, hfind, hst, hp]
    refine ⟨_, heq, ?_, ?_⟩
    · exact stockOf_saveProduct db h.product p
        { p with quantity := p.quantity + h.quantity } hp rfl
    · exact find?_filter_ne_none _ hid
  · intro hst
    have heq : deleteHandover db hid =
        .ok { db with handovers := db.handovers.filter (fun x => x.id ≠ hid) } := by
      simp [deleteHandover, hfind, hst]
    refine ⟨_, heq, rfl, ?_⟩
    exact find?_filter_ne_none _ hid

theorem deleteHandover_spec_witness :
    (overHO.status = .handed_over →
      ∃ db', deleteHandover overReturnDB 100 = .ok db' ∧
        stockOf db' overHO.product = 5 + overHO.quantity ∧
        findHandover db' 100 = none) ∧
    (overHO.status ≠ .handed_over →
      ∃ db', deleteHandover overReturnDB 100 = .ok db' ∧
        db'.products = overReturnDB.products ∧ findHandover db' 100 = none) :=
  deleteHandover_spec overReturnDB 100 overHO
    { id := 1, productId := 1, quantity := 5, createdAt := 0 } (by decide) (by decide)

/-- C8: after any successful product deletion the remaining products
carry productId values 1..N in createdAt order, everything about them
except productId is preserved (as a permutation of the survivors), and
the id counter is reset to the new count N. -/
theorem deleteProduct_resequences (db db' : DB) (pid : Nat)
    (hok : deleteProduct db pid = .ok db') :
    db'.products.map (fun p => p.productId) = List.range' 1 db'.products.length ∧
    db'.products.Pairwise (fun a b => a.createdAt ≤ b.createdAt) ∧
    db'.counterSeq = db'.products.length ∧
    List.Perm (db'.products.map stripPid)
      ((db.products.filter (fun p => p.id ≠ pid)).map stripPid) := by
  unfold deleteProduct at hok
  cases hfind : findProduct db pid with
  | none => rw [hfind] at hok; exact absurd hok (by simp)
  | some p =>
    rw [hfind] at hok
    simp only [Except.ok.injEq] at hok
    subst hok
    set fl := db.products.filter (fun p => p.id ≠ pid) with hfl
    have hperm : List.Perm (sortByCreatedAt fl) fl := List.mergeSort_perm fl _
    have hlen : (renumber 1 (sortByCreatedAt fl)).length = fl.length := by
      rw [length_renumber, hperm.length_eq]
    refine ⟨?_, ?_, ?_, ?_⟩
    · show (renumber 1 (sortByCreatedAt fl)).map (fun p => p.productId) =
        List.range' 1 (renumber 1 (sortByCreatedAt fl)).length
      rw [map_productId_renumber, length_renumber]
    · show (renumber 1 (sortByCreatedAt fl)).Pairwise (fun a b => a.createdAt ≤ b.createdAt)
      have hsorted := @List.sorted_mergeSort Product
        (fun a b : Product => decide (a.createdAt ≤ b.createdAt))
        (fun a b c hab hbc => by
          simp only [decide_eq_true_eq] at hab hbc ⊢
          omega)
        (fun a b => by
          simp only [Bool.or_eq_true, decide_eq_true_eq]
          omega)
        fl
      have hsorted' : (sortByCreatedAt fl).Pairwise (fun a b => a.createdAt ≤ b.createdAt) := by
        refine hsorted.imp ?_
        intro a b hab
        simpa using hab
      have h1 : List.Pairwise (fun a b : Nat => a ≤ b)
          ((renumber 1 (sortByCreatedAt fl)).map (fun p => p.createdAt)) := by
        rw [map_createdAt_renumber]
        exact (List.pairwise_map).mpr hsorted'
      exact (List.pairwise_map).mp h1
    · show fl.length = (renumber 1 (sortByCreatedAt fl)).length
      rw [hlen]
    · show List.Perm ((renumber 1 (sortByCreatedAt fl)).map stripPid) (fl.map stripPid)
      rw [map_stripPid_renumber]
      exact hperm.map stripPid

theorem deleteProduct_resequences_witness :
    (applyOp seqDB (.deleteProduct 1)).products.map (fun p => p.productId) =
      List.range' 1 (applyOp seqDB (.deleteProduct 1)).products.length ∧
    (applyOp seqDB (.deleteProduct 1)).products.Pairwise
      (fun a b => a.createdAt ≤ b.createdAt) ∧
    (applyOp seqDB (.deleteProduct 1)).counterSeq =
      (applyOp seqDB (.deleteProduct 1)).products.length ∧
    List.Perm ((applyOp seqDB (.deleteProduct 1)).products.map stripPid)
      ((seqDB.products.filter (fun p => p.id ≠ 1)).map stripPid) :=
  deleteProduct_resequences seqDB (applyOp seqDB (.deleteProduct 1)) 1 rfl

/-- C9: after every save, permissions are exactly the capability
vector recomputed from the post-save role, never merged with previous
flags; the failsafe account always leaves a save as an active admin
whose permission block equals the admin capability vector. -/
theorem preSave_permissions_from_role (u : User) :
    (preSave u).permissions = rolePermissions (preSave u).role ∧
    (u.email = FAILSAFE_EMAIL →
      (preSave u).role = .admin ∧ (preSave u).isActive = true ∧
      (preSave u).permissions = failsafePermissions ∧
      failsafePermissions = rolePermissions .admin) := by
  unfold preSave
  by_cases he : u.email = FAILSAFE_EMAIL
  · rw [if_pos he]
    exact ⟨show failsafePermissions = rolePermissions .admin by decide,
           fun _ => ⟨rfl, rfl, rfl, by decide⟩⟩
  · rw [if_neg he]
    exact ⟨rfl, fun hc => absurd hc he⟩

theorem preSave_permissions_from_role_witness :
    (preSave failsafeUser).permissions = rolePermissions (preSave failsafeUser).role ∧
    (failsafeUser.email = FAILSAFE_EMAIL →
      (preSave failsafeUser).role = .admin ∧ (preSave failsafeUser).isActive = true ∧
      (preSave failsafeUser).permissions = failsafePermissions ∧
      failsafePermissions = rolePermissions .admin) :=
  preSave_permissions_from_role failsafeUser

/-- C10: on direct handover creation the stored issuer is the
client-supplied body field when present, falling back to the
authenticated caller only when it is absent; in particular there is an
input (body field 99, caller 1) for which the stored issuer is a user
other than the actual caller. -/
theorem createDirectHandover_issuer_spoofable (db : DB) (hid pid eid : Nat) (q : Int)
    (hb : Option Nat) (c now : Nat) (db' : DB)
    (hok : createDirectHandover db hid pid eid q hb c now = .ok db')
    (hfresh : findHandover db hid = none) :
    (∃ h, findHandover db' hid = some h ∧ h.handedOverBy = some (hb.getD c)) ∧
    (∃ h, findHandover (applyOp sampleDB (.createDirectHandover 200 1 7 3 (some 99) 1 0)) 200 =
        some h ∧ h.handedOverBy = some 99 ∧ (99 : Nat) ≠ 1) := by
  constructor
  · unfold createDirectHandover at hok
    split at hok
    · exact absurd hok (by simp)
    · cases hp : findProduct db pid with
      | none => rw [hp] at hok; exact absurd hok (by simp)
      | some product =>
        rw [hp] at hok
        simp only at hok
        split at hok
        · exact absurd hok (by simp)
        · split at hok
          · exact absurd hok (by simp)
          · simp only [Except.ok.injEq] at hok
            subst hok
            exact ⟨_, findHandover_create db hid _ hfresh rfl, rfl⟩
  · exact ⟨{ id := 200, product := 1, employee := 7, handedOverBy := some 99
             quantity := 3, returnedQuantity := none, status := .handed_over
             handOverDate := some 0, actualReturnDate := none, returnDate := none
             returnedBy := none, rejectedBy := none },
           by decide, rfl, by decide⟩

theorem createDirectHandover_issuer_spoofable_witness :
    (∃ h, findHandover (applyOp sampleDB (.createDirectHandover 200 1 7 3 (some 99) 1 0)) 200 =
        some h ∧ h.handedOverBy = some ((some 99).getD 1)) ∧
    (∃ h, findHandover (applyOp sampleDB (.createDirectHandover 200 1 7 3 (some 99) 1 0)) 200 =
        some h ∧ h.handedOverBy = some 99 ∧ (99 : Nat) ≠ 1) :=
  createDirectHandover_issuer_spoofable sampleDB 200 1 7 3 (some 99) 1 0
    (applyOp sampleDB (.createDirectHandover 200 1 7 3 (some 99) 1 0)) rfl (by decide)

end IMS
